/-
  Verification of the multipath-QUIC path scheduler
  (src/src/quic/model/mp-quic-scheduler.cc, class ns3::MpQuicScheduler).

  Shallow embedding conventions:
  * `double` values (RTT seconds, scores, weights) are modelled as `ℚ`;
    byte counts (`uint32_t`) as `ℕ`, with an explicit `% 2^32` where the
    C++ performs unsigned arithmetic that can wrap.
  * The transcendental library calls `std::exp`, `std::log`, `std::sqrt`
    and Eigen's `.inverse()` are parameters of the embedded functions;
    theorems assume of them only properties the real functions have
    (e.g. positivity and monotonicity of `exp`).
  * Out-of-bounds vector accesses (undefined behaviour in C++) are made
    observable by returning `none`: `Option` results model UB-freedom.
  * `MpQuicScheduler::m_lambda` / `m_bVar` / `m_waiting` /
    `m_lastUsedPathId` are declared in mp-quic-scheduler.h, which is not
    part of the sources; they are modelled from the spec as unbounded
    naturals (spec section 3: per-policy learning state).
-/
import Mathlib

namespace MpQuic

/-- One active subflow's telemetry snapshot, as read by the scheduler:
`m_tcb->m_lastRtt` (seconds), `m_tcb->m_rttVar` (seconds),
`m_tcb->m_cWnd` (bytes), `m_tcb->m_bytesInFlight` (bytes). -/
structure PathInfo where
  lastRtt : ℚ
  rttVar : ℚ
  cWnd : ℕ
  bytesInFlight : ℕ
deriving DecidableEq, Repr

/-- Modelled from the spec: `AvailableWindow(pathId) -> bytes` is provided by
QuicSocketBase (quic-socket-base.cc, not among the sources); the spec's
glossary defines it as `cwnd - bytesInFlight`, the capacity for new data
(truncated at zero). -/
def availableWindow (p : PathInfo) : ℕ :=
  p.cWnd - p.bytesInFlight

/-- Modelled from the spec: the socket-level quantities the scheduler reads
through `m_socket` (`GetSegSize()`, `GetTxAvailable()`,
`GetBytesInBuffer()`), all byte counts. -/
structure SockCtx where
  segSize : ℕ
  txAvailable : ℕ
  bytesInBuffer : ℕ
deriving DecidableEq, Repr

/-- The weight vector `tosend` of length `n`, all `0.0` except entry `j`
set to `1.0` (the pattern `std::vector<double> tosend(n, 0.0);
tosend[j] = 1.0;`). -/
def oneHotQ (n j : ℕ) : List ℚ :=
  (List.replicate n (0 : ℚ)).set j 1

/-- Bounds-checked list update: C++ `v[i] = x` is undefined behaviour when
`i` is out of range, modelled as `none`. -/
def setAt {α : Type} (l : List α) (i : ℕ) (x : α) : Option (List α) :=
  if i < l.length then some (l.set i x) else none

/-- `MpQuicScheduler::RoundRobin` (mp-quic-scheduler.cc lines 155-169).
State in: `m_lastUsedPathId`; returns the weight vector and the updated
cursor.  The empty-subflow case (out-of-bounds write in C++) is
unreachable from the dispatcher, which returns early on an empty set. -/
def roundRobin (subflows : List PathInfo) (last : ℕ) : List ℚ × ℕ :=
  if subflows.length ≤ 1 then
    (oneHotQ subflows.length 0, 0)
  else
    let c := (last + 1) % subflows.length
    (oneHotQ subflows.length c, c)

/-- `MpQuicScheduler::MinRtt` (mp-quic-scheduler.cc lines 171-214).
Only subflows 0 and 1 are ever examined; ties (`>=`) make path 1 fast. -/
def minRtt (subflows : List PathInfo) : List ℚ × ℕ :=
  match subflows with
  | [] => (oneHotQ 0 0, 0)
  | [_] => (oneHotQ 1 0, 0)
  | p0 :: p1 :: rest =>
    let n := rest.length + 2
    if p1.lastRtt = 0 then
      (oneHotQ n 1, 1)
    else
      let fast : ℕ := if p0.lastRtt ≥ p1.lastRtt then 1 else 0
      let slow : ℕ := if p0.lastRtt ≥ p1.lastRtt then 0 else 1
      let pFast := if p0.lastRtt ≥ p1.lastRtt then p1 else p0
      if availableWindow pFast > 0 then
        (oneHotQ n fast, fast)
      else
        (oneHotQ n slow, slow)

/-- `MpQuicScheduler::Blest` (mp-quic-scheduler.cc lines 302-355).
State in: `m_lastUsedPathId`, `m_lambda`, `m_bVar`; returns the weight
vector, the new cursor and the new lambda.  `cwndF = m_cWnd/mss`
(line 342) is C++ unsigned integer division: at `mss = 0` it is
undefined behaviour, modelled as `none` (likewise the out-of-bounds
`tosend[0]` write on an empty subflow set, unreachable from the guarded
dispatcher).  `comp = GetTxAvailable() - (BytesInFlight(slow)+mss)` is
`uint32_t` arithmetic and wraps mod 2^32.  The `double` quotient
`rttS/rttF` (line 341, IEEE-defined even at `rttF = 0`) is modelled in
`ℚ` with `x/0 = 0`; at `rttF = 0` the model may take the other arm of
the `X*lambda > comp` test than the `±inf/NaN` double would, but both
arms yield a one-hot vector and the same lambda update, so no stated
property depends on which arm is taken there. -/
def blest (subflows : List PathInfo) (ctx : SockCtx)
    (lambda bVar : ℕ) : Option (List ℚ × ℕ × ℕ) :=
  match subflows with
  | [] => none
  | [_] => some (oneHotQ 1 0, 0, lambda)
  | p0 :: p1 :: rest =>
    let n := rest.length + 2
    if p1.lastRtt = 0 then
      some (oneHotQ n 1, 1, lambda)
    else
      let mss := ctx.segSize
      let fast : ℕ := if p0.lastRtt > p1.lastRtt then 1 else 0
      let slow : ℕ := if p0.lastRtt > p1.lastRtt then 0 else 1
      let pFast := if p0.lastRtt > p1.lastRtt then p1 else p0
      let pSlow := if p0.lastRtt > p1.lastRtt then p0 else p1
      let rttF := pFast.lastRtt
      let rttS := pSlow.lastRtt
      if availableWindow pFast > 0 then
        some (oneHotQ n fast, fast, lambda)
      else
        if mss = 0 then none
        else
          let rtts : ℚ := rttS / rttF
          let cwndF : ℚ := ((pFast.cWnd / mss : ℕ) : ℚ)
          let X : ℚ := (mss : ℚ) * (cwndF + (rtts - 1) / 2) * rtts
          let comp : ℚ :=
            (((ctx.txAvailable % 2 ^ 32 + 2 ^ 32
                - (pSlow.bytesInFlight + mss) % 2 ^ 32) % 2 ^ 32 : ℕ) : ℚ)
          let lambda2 := lambda + bVar
          if X * (lambda2 : ℚ) > comp then
            some (oneHotQ n fast, fast, lambda2)
          else
            some (oneHotQ n slow, slow, lambda2)

/-- `MpQuicScheduler::Ecf` (mp-quic-scheduler.cc lines 358-416).
State in: `m_lastUsedPathId`, `m_waiting`; returns the weight vector, the
new cursor and the new waiting flag.  `k/cwnd` (lines 397 and 400) is
C++ unsigned integer division (the quotient is then converted to
`double`): division by a zero congestion window is undefined behaviour,
modelled as `none` exactly where the source evaluates it — line 400's
division runs only when line 399's test holds.  The out-of-bounds
`tosend[0]` write on an empty subflow set (unreachable from the guarded
dispatcher) is `none` as well. -/
def ecf (subflows : List PathInfo) (ctx : SockCtx)
    (last waiting : ℕ) : Option (List ℚ × ℕ × ℕ) :=
  match subflows with
  | [] => none
  | [_] => some (oneHotQ 1 0, 0, waiting)
  | p0 :: p1 :: rest =>
    let n := rest.length + 2
    if p1.lastRtt = 0 then
      let c := (last + 1) % n
      some (oneHotQ n c, c, waiting)
    else
      let fast : ℕ := if p0.lastRtt > p1.lastRtt then 1 else 0
      let slow : ℕ := if p0.lastRtt > p1.lastRtt then 0 else 1
      let pFast := if p0.lastRtt > p1.lastRtt then p1 else p0
      let pSlow := if p0.lastRtt > p1.lastRtt then p0 else p1
      let rttF := pFast.lastRtt
      let rttS := pSlow.lastRtt
      if availableWindow pFast > 0 then
        some (oneHotQ n fast, fast, waiting)
      else
        if pFast.cWnd = 0 then none
        else
          let k := ctx.bytesInBuffer
          let nn : ℚ := 1 + ((k / pFast.cWnd : ℕ) : ℚ)
          let delta : ℚ := max pFast.rttVar pSlow.rttVar
          if nn * rttF < (1 + (waiting : ℚ) * 1) * (rttS + delta) then
            if pSlow.cWnd = 0 then none
            else
              if ((k / pSlow.cWnd : ℕ) : ℚ) * rttS ≥ 2 * rttF + delta then
                some (oneHotQ n fast, fast, 1)
              else
                some (oneHotQ n slow, slow, waiting)
          else
            some (oneHotQ n slow, slow, 0)

/-- The sequential clamp `if (prio < 0.0) prio = 0.0; if (prio > 1.0)
prio = 1.0;` of `MpQuicScheduler::PriorityLoad` (lines 235-236). -/
def clamp01 (p : ℚ) : ℚ :=
  if p < 0 then 0 else if p > 1 then 1 else p

/-- The per-path RTT fix-up `if (rtt <= 0.0) rtt = 1e-3;` of
`PriorityLoad` (lines 245, 254). -/
def plFixRtt (p : PathInfo) : ℚ :=
  if p.lastRtt ≤ 0 then 1 / 1000 else p.lastRtt

/-- `rttMin` of `PriorityLoad`: running minimum over the fixed-up RTTs,
seeded with `1e9` (lines 241-248). -/
def plRttMin (paths : List PathInfo) : ℚ :=
  paths.foldl (fun m p => min m (plFixRtt p)) 1000000000

/-- `rttMax` of `PriorityLoad`: running maximum over the fixed-up RTTs,
seeded with `0.0` (lines 241-248). -/
def plRttMax (paths : List PathInfo) : ℚ :=
  paths.foldl (fun m p => max m (plFixRtt p)) 0

/-- The per-path composite score of `PriorityLoad` (lines 249-265):
`1.0*rttBenefit + 0.3*log(1+availableWindow) - 0.3*log(1+bytesInFlight)`
with `rttBenefit = 1 - (rtt - rttMin)/span`,
`span = max(1e-6, rttMax - rttMin)`; `l` stands for `std::log`. -/
def plScores (l : ℚ → ℚ) (paths : List PathInfo) : List ℚ :=
  let rMin := plRttMin paths
  let span := max (1 / 1000000) (plRttMax paths - rMin)
  paths.map (fun p =>
    1 * (1 - (plFixRtt p - rMin) / span)
      + (3 / 10) * l (1 + (availableWindow p : ℚ))
      - (3 / 10) * l (1 + (p.bytesInFlight : ℚ)))

/-- The best-score index search of `PriorityLoad` (lines 268-270):
`best = 0; for i, if (score[i] > score[best]) best = i;`. -/
def argmaxIdx (s : List ℚ) : ℕ :=
  (List.range s.length).foldl (fun b i => if s.getD i 0 > s.getD b 0 then i else b) 0

/-- The softmax temperature `max(0.15, 1.0 - 0.85 * prio)` of
`PriorityLoad` (line 272). -/
def plTemp (prio : ℚ) : ℚ :=
  max (3 / 20) (1 - (17 / 20) * prio)

/-- The vector of exponentials `e_i = exp((score[i] - score[best])/temp)`
of `PriorityLoad` (lines 274-281); `e` stands for `std::exp`. -/
def softmaxEs (e : ℚ → ℚ) (s : List ℚ) (prio : ℚ) : List ℚ :=
  s.map (fun v => e ((v - s.getD (argmaxIdx s) 0) / plTemp prio))

/-- The normalization step of `PriorityLoad` (lines 274-290): if the sum of
exponentials is not positive, a one-hot vector on the best path, else
each exponential divided by the sum. -/
def softmaxW (e : ℚ → ℚ) (s : List ℚ) (prio : ℚ) : List ℚ :=
  let es := softmaxEs e s prio
  if es.sum ≤ 0 then oneHotQ s.length (argmaxIdx s)
  else es.map (fun x => x / es.sum)

/-- `MpQuicScheduler::PriorityLoad` (mp-quic-scheduler.cc lines 216-291).
`e` and `l` stand for the library calls `std::exp` and `std::log`. -/
def priorityLoad (e l : ℚ → ℚ) (paths : List PathInfo) (prio : ℚ) : List ℚ :=
  if paths.length ≤ 1 then oneHotQ paths.length 0
  else softmaxW e (plScores l paths) (clamp01 prio)

/-- Peekaboo's per-path 6x6 learning matrix `A` (Eigen `MatrixXd`). -/
abbrev Mat6 := Matrix (Fin 6) (Fin 6) ℚ

/-- Peekaboo's per-path 6-vector `b` and the shared feature `peek_x`. -/
abbrev Vec6 := Fin 6 → ℚ

/-- The Peekaboo learning state owned by the scheduler: the per-path
vectors `EPR`, `A`, `b` and the shared feature vector `peek_x` and reward
accumulator `R` (the latter two written only by `PeekabooReward`). -/
structure PeekSt where
  EPR : List ℚ
  A : List Mat6
  b : List Vec6
  x : Vec6
  R : ℚ

/-- `MpQuicScheduler::Peekaboo` (mp-quic-scheduler.cc lines 418-481).
`inv6` stands for Eigen's `.inverse()` and `sq` for `std::sqrt`.  Every
`operator[]` access is bounds-checked: an out-of-range index (undefined
behaviour in C++) yields `none`.  Returns the weight vector, the updated
learning state and the new `m_lastUsedPathId`. -/
def peekaboo (inv6 : Mat6 → Mat6) (sq : ℚ → ℚ)
    (subflows : List PathInfo) (st : PeekSt) :
    Option (List ℚ × PeekSt × ℕ) :=
  let K := subflows.length
  let epr0 := if st.EPR.length < K then st.EPR ++ [0] else st.EPR
  let A0 := if st.EPR.length < K then st.A ++ [(1 : Mat6)] else st.A
  let b0 := if st.EPR.length < K then st.b ++ [(0 : Vec6)] else st.b
  if K ≤ 1 then do
    let ts ← setAt (List.replicate K (0 : ℚ)) 0 1
    some (ts, { st with EPR := epr0, A := A0, b := b0 }, 0)
  else
    match subflows with
    | [] => none
    | [_] => none
    | p0 :: p1 :: _ =>
      if p1.lastRtt = 0 then do
        let ts ← setAt (List.replicate K (0 : ℚ)) 1 1
        some (ts, { st with EPR := epr0, A := A0, b := b0 }, 1)
      else
        let fast : ℕ := if p0.lastRtt ≥ p1.lastRtt then 1 else 0
        let slow : ℕ := if p0.lastRtt ≥ p1.lastRtt then 0 else 1
        let pFast := if p0.lastRtt ≥ p1.lastRtt then p1 else p0
        if availableWindow pFast > 0 then do
          let ts ← setAt (List.replicate K (0 : ℚ)) fast 1
          some (ts, { st with EPR := epr0, A := A0, b := b0 }, fast)
        else do
          let Ai0 ← A0[0]?
          let bi0 ← b0[0]?
          let e0 := Matrix.dotProduct st.x (Ai0.mulVec bi0)
            + (4 / 5) * sq (Matrix.dotProduct st.x ((inv6 Ai0).mulVec st.x))
          let epr1 ← setAt epr0 0 e0
          let Ai1 ← A0[1]?
          let bi1 ← b0[1]?
          let e1 := Matrix.dotProduct st.x (Ai1.mulVec bi1)
            + (4 / 5) * sq (Matrix.dotProduct st.x ((inv6 Ai1).mulVec st.x))
          let epr2 ← setAt epr1 1 e1
          let eF ← epr2[fast]?
          let eS ← epr2[slow]?
          let ch := if eF > eS then fast else slow
          let Ac ← A0[ch]?
          let A2 ← setAt A0 ch (Ac + Matrix.vecMulVec st.x st.x)
          let bc ← b0[ch]?
          let b2 ← setAt b0 ch (bc + st.R • st.x)
          let ts ← setAt (List.replicate K (0 : ℚ)) ch 1
          some (ts, { EPR := epr2, A := A2, b := b2, x := st.x, R := st.R }, ch)

/-- The scheduler-type configuration `m_schedulerType`; the named enum
constants live in mp-quic-scheduler.h, any other `int16_t` value hits the
`default:` case of the dispatch switch. -/
inductive SchedulerKind
  | roundRobinK | minRttK | blestK | ecfK | peekabooK | priorityLoadK | unknownK
deriving DecidableEq, Repr

/-- The mutable scheduler members threaded through a decision
(`m_lastUsedPathId`, `m_lambda`, `m_bVar`, `m_waiting` and the Peekaboo
learning state). -/
structure SchedState where
  lastUsedPathId : ℕ
  lambda : ℕ
  bVar : ℕ
  waiting : ℕ
  peek : PeekSt

/-- `MpQuicScheduler::GetNextPathIdToUse` (mp-quic-scheduler.cc lines
110-153): on an empty subflow set it appends `1.0` to the (empty) zero
vector and returns; otherwise it dispatches on `m_schedulerType`, with
`default:` falling back to RoundRobin. -/
def getNextPathIdToUse (inv6 : Mat6 → Mat6) (sq e l : ℚ → ℚ)
    (sched : SchedulerKind) (subflows : List PathInfo) (ctx : SockCtx)
    (prio : ℚ) (st : SchedState) : Option (List ℚ) :=
  let tosend := List.replicate subflows.length (0 : ℚ)
  if subflows.isEmpty then some (tosend ++ [1])
  else
    match sched with
    | .roundRobinK => some (roundRobin subflows st.lastUsedPathId).1
    | .minRttK => some (minRtt subflows).1
    | .blestK => (blest subflows ctx st.lambda st.bVar).map (·.1)
    | .ecfK => (ecf subflows ctx st.lastUsedPathId st.waiting).map (·.1)
    | .peekabooK => (peekaboo inv6 sq subflows st.peek).map (·.1)
    | .priorityLoadK => some (priorityLoad e l subflows prio)
    | .unknownK => some (roundRobin subflows st.lastUsedPathId).1

/-- The per-path estimate exactly as the decision branch of `Peekaboo`
computes it (lines 462-465): `zeta = A[i]*b[i]` and
`EPR[i] = <x, zeta> + 0.8 * sqrt(x^T A[i].inverse() x)` — the first term
multiplies by `A[i]` itself, not by its inverse. -/
def eprCodeFormula (inv6 : Mat6 → Mat6) (sq : ℚ → ℚ)
    (A : Mat6) (b x : Vec6) : ℚ :=
  Matrix.dotProduct x (A.mulVec b)
    + (4 / 5) * sq (Matrix.dotProduct x ((inv6 A).mulVec x))

/-- The upper-confidence estimate as the spec words it (section 4.6):
`EPR = <feature, A^{-1} b> + c * sqrt(feature^T A^{-1} feature)` with
`c = 0.8`.  Written from the spec, for refinement comparison with
`eprCodeFormula`. -/
def eprSpecFormula (inv6 : Mat6 → Mat6) (sq : ℚ → ℚ)
    (A : Mat6) (b x : Vec6) : ℚ :=
  Matrix.dotProduct x ((inv6 A).mulVec b)
    + (4 / 5) * sq (Matrix.dotProduct x ((inv6 A).mulVec x))

/-- Entrywise inverse of the diagonal: a concrete stand-in for Eigen's
`.inverse()` that agrees with the true matrix inverse on the invertible
diagonal matrices at which the counterexamples evaluate it (see
`cexA_mul_diagInv` and `diagInv_one`). -/
def diagInv (M : Mat6) : Mat6 :=
  Matrix.diagonal (fun i => (M i i)⁻¹)

/-- Exact rational square root for ratios of perfect squares: a concrete
stand-in for `std::sqrt` that agrees with the real square root at every
argument the counterexamples evaluate (`1/4` and `1`). -/
def ratSqrt (q : ℚ) : ℚ :=
  ((Nat.sqrt q.num.toNat : ℚ)) / ((Nat.sqrt q.den : ℚ))

/-- Counterexample learning matrix for claim C2: `diag(4,1,1,1,1,1)`. -/
def cexA : Mat6 := Matrix.diagonal (fun i => if i = 0 then 4 else 1)

/-- Counterexample learning vector `b = e0` for claim C2. -/
def cexB : Vec6 := fun i => if i = 0 then 1 else 0

/-- Counterexample feature vector `peek_x = e0` for claims C2 and C9. -/
def cexX : Vec6 := fun i => if i = 0 then 1 else 0

lemma oneHotQ_length (n j : ℕ) : (oneHotQ n j).length = n := by
  simp [oneHotQ]

lemma oneHotQ_getD (n j : ℕ) (hj : j < n) (i : ℕ) (hi : i < n) :
    (oneHotQ n j).getD i 0 = if i = j then 1 else 0 := by
  have hi' : i < (oneHotQ n j).length := by rw [oneHotQ_length]; exact hi
  rw [List.getD_eq_getElem _ _ hi']
  simp only [oneHotQ, List.getElem_set, List.getElem_replicate]
  by_cases h : i = j
  · simp [h]
  · have h' : ¬ j = i := fun hh => h hh.symm
    simp [h, h']

/-- Claim C1: the spec requires an explicit "no path available" sentinel on
an empty PathSet, never a non-empty weight vector.  The code instead
appends `1.0` to the empty zero vector and returns the one-element weight
vector `[1.0]` although there are zero paths, for every scheduler type
and state. -/
theorem c1_empty_pathset_phantom_entry (inv6 : Mat6 → Mat6) (sq e l : ℚ → ℚ)
    (sched : SchedulerKind) (ctx : SockCtx) (prio : ℚ) (st : SchedState) :
    getNextPathIdToUse inv6 sq e l sched ([] : List PathInfo) ctx prio st
      = some [(1 : ℚ)] := by
  simp [getNextPathIdToUse]

/-- Claim C4 counterexample: two paths with measured RTTs `(2s, 1s)`, the
fast path (path 1) has available window `1 > 0`, and the sticky waiting
flag enters the call as `1`.  ECF selects the fast path but the waiting
flag is still `1` afterwards: the fast-window branch of
`MpQuicScheduler::Ecf` never writes `m_waiting`, so it is not cleared. -/
theorem c4_counterexample :
    (ecf [⟨2, 0, 1, 0⟩, ⟨1, 0, 1, 0⟩] ⟨1, 1, 1⟩ 0 1)
      = some (oneHotQ 2 1, 1, 1) ∧ (1 : ℕ) ≠ 0 := by
  constructor
  · decide
  · decide

/-- Claim C4 (amended): with two paths whose RTTs are measured, whenever
the code's fast path (index `1` if `rtt0 > rtt1`, else `0`) has available
window, ECF selects the fast path and leaves the sticky waiting flag
unchanged (the flag is written only in the no-window branch). -/
theorem c4_amended (p0 p1 : PathInfo) (ctx : SockCtx) (last waiting f : ℕ)
    (h0 : p0.lastRtt ≠ 0) (h1 : p1.lastRtt ≠ 0)
    (hf : f = if p0.lastRtt > p1.lastRtt then 1 else 0)
    (hw : 0 < availableWindow (if p0.lastRtt > p1.lastRtt then p1 else p0)) :
    ecf [p0, p1] ctx last waiting = some (oneHotQ 2 f, f, waiting) := by
  subst hf
  simp only [ecf, List.length_nil]
  rw [if_neg h1, if_pos hw]

theorem c4_amended_witness :
    ecf [⟨2, 0, 1, 0⟩, ⟨1, 0, 1, 0⟩] ⟨1, 1, 1⟩ 0 5
      = some (oneHotQ 2 1, 1, 5) :=
  c4_amended ⟨2, 0, 1, 0⟩ ⟨1, 0, 1, 0⟩ ⟨1, 1, 1⟩ 0 5 1
    (by decide) (by decide) (by decide) (by decide)

/-- Claim C3 counterexample: three paths with RTTs `(3s, 2s, 1s)`; path 2
has strictly the lowest RTT of all paths and available window `1 > 0`,
yet `MpQuicScheduler::MinRtt` — which only ever compares subflows 0 and
1 — selects path 1 and puts weight `0` on path 2. -/
theorem c3_counterexample :
    minRtt [⟨3, 0, 1, 0⟩, ⟨2, 0, 1, 0⟩, ⟨1, 0, 1, 0⟩] = (oneHotQ 3 1, 1)
    ∧ (1 : ℚ) < 2 ∧ (1 : ℚ) < 3
    ∧ 0 < availableWindow ⟨1, 0, 1, 0⟩
    ∧ (oneHotQ 3 1).getD 2 0 = 0 := by
  refine ⟨by decide, by decide, by decide, by decide, by decide⟩

/-- Claim C3 (amended): for a PathSet of exactly two paths with
nonnegative RTTs, if path `j` has strictly the lowest RTT and available
window, MinRtt selects exactly path `j`; for three or more paths the code
only ever chooses between subflows 0 and 1, so the global-minimum claim
fails (see the counterexample). -/
theorem c3_amended (p0 p1 : PathInfo) (j : ℕ)
    (h0 : 0 ≤ p0.lastRtt) (h1 : 0 ≤ p1.lastRtt) (hj : j < 2)
    (hstrict : ∀ i < 2, i ≠ j →
      ([p0, p1].getD j ⟨0, 0, 0, 0⟩).lastRtt
        < ([p0, p1].getD i ⟨0, 0, 0, 0⟩).lastRtt)
    (hw : 0 < availableWindow ([p0, p1].getD j ⟨0, 0, 0, 0⟩)) :
    minRtt [p0, p1] = (oneHotQ 2 j, j) := by
  interval_cases j
  · have hlt : p0.lastRtt < p1.lastRtt := by
      simpa using hstrict 1 (by norm_num) (by norm_num)
    have hne : p1.lastRtt ≠ 0 := by
      intro hz
      rw [hz] at hlt
      exact absurd (lt_of_le_of_lt h0 hlt) (lt_irrefl 0)
    have hge : ¬ (p0.lastRtt ≥ p1.lastRtt) := not_le.mpr hlt
    have hw0 : 0 < availableWindow p0 := by simpa using hw
    have hw1 : ¬ availableWindow p0 = 0 := by omega
    simp [minRtt, hne, hge, hw0, hw1]
  · have hlt : p1.lastRtt < p0.lastRtt := by
      simpa using hstrict 0 (by norm_num) (by norm_num)
    simp only [List.getD] at hw
    by_cases hz : p1.lastRtt = 0
    · simp [minRtt, hz]
    · have hge : p0.lastRtt ≥ p1.lastRtt := le_of_lt hlt
      have hw0 : 0 < availableWindow p1 := by simpa using hw
      have hw1 : ¬ availableWindow p1 = 0 := by omega
      simp [minRtt, hz, hge, hw0, hw1]

theorem c3_amended_witness :
    minRtt [⟨2, 0, 1, 0⟩, ⟨1, 0, 1, 0⟩] = (oneHotQ 2 1, 1) :=
  c3_amended ⟨2, 0, 1, 0⟩ ⟨1, 0, 1, 0⟩ 1 (by decide) (by decide) (by decide)
    (by decide) (by decide)

/-- Claim C5: every completed evaluation of the slow-path
blocking-estimation branch of `MpQuicScheduler::Blest` sets `m_lambda`
to `m_lambda + m_bVar` (the update at line 345 runs after the integer
division at line 342, so the branch completes only with a nonzero
segment size); no branch ever decreases lambda, so over any completed
sequence of BLEST decisions lambda is monotonically non-decreasing.
(`m_lambda` is modelled as an unbounded natural, following spec
section 3; its declared machine width is in mp-quic-scheduler.h, which
is not among the sources.) -/
theorem c5_blest_lambda_monotone :
    (∀ (subflows : List PathInfo) (ctx : SockCtx) (lambda bVar : ℕ)
        (r : List ℚ × ℕ × ℕ),
      blest subflows ctx lambda bVar = some r → lambda ≤ r.2.2)
    ∧ (∀ (p0 p1 : PathInfo) (rest : List PathInfo) (ctx : SockCtx)
        (lambda bVar : ℕ),
        p1.lastRtt ≠ 0 → ctx.segSize ≠ 0 →
        availableWindow (if p0.lastRtt > p1.lastRtt then p1 else p0) = 0 →
        ∃ ts c, blest (p0 :: p1 :: rest) ctx lambda bVar
          = some (ts, c, lambda + bVar))
    ∧ (∀ (calls : List (List PathInfo × SockCtx)) (lambda bVar lamEnd : ℕ),
        calls.foldlM (fun l c => (blest c.1 c.2 l bVar).map (·.2.2)) lambda
          = some lamEnd →
        lambda ≤ lamEnd) := by
  have mono : ∀ (subflows : List PathInfo) (ctx : SockCtx) (lambda bVar : ℕ)
      (r : List ℚ × ℕ × ℕ),
      blest subflows ctx lambda bVar = some r → lambda ≤ r.2.2 := by
    intro subflows ctx lambda bVar r hr
    rcases r with ⟨ts, cr, lam2⟩
    show lambda ≤ lam2
    match subflows with
    | [] => simp [blest] at hr
    | [p] =>
      simp only [blest, Option.some.injEq, Prod.mk.injEq] at hr
      omega
    | p0 :: p1 :: rest =>
      simp only [blest] at hr
      split_ifs at hr
      all_goals try exact Option.noConfusion hr
      all_goals simp only [Option.some.injEq, Prod.mk.injEq] at hr
      all_goals omega
  refine ⟨mono, ?_, ?_⟩
  · intro p0 p1 rest ctx lambda bVar hrtt hmss hwin
    have hwin2 : ¬ availableWindow (if p0.lastRtt > p1.lastRtt then p1 else p0) > 0 := by
      omega
    simp only [blest]
    rw [if_neg hrtt, if_neg hwin2, if_neg hmss]
    split_ifs <;> exact ⟨_, _, rfl⟩
  · intro calls
    induction calls with
    | nil =>
      intro lambda bVar lamEnd h
      simp only [List.foldlM_nil, Option.pure_def, Option.some.injEq] at h
      omega
    | cons c cs ih =>
      intro lambda bVar lamEnd h
      rw [List.foldlM_cons] at h
      cases hb : blest c.1 c.2 lambda bVar with
      | none =>
        rw [hb] at h
        simp at h
      | some r =>
        rw [hb] at h
        simp only [Option.map_some', Option.some_bind] at h
        exact le_trans (mono c.1 c.2 lambda bVar r hb) (ih r.2.2 bVar lamEnd h)

theorem c5_blest_lambda_witness :
    ∃ ts c, blest [⟨2, 0, 10, 10⟩, ⟨1, 0, 10, 10⟩] ⟨1, 1, 1⟩ 5 3
      = some (ts, c, 5 + 3) :=
  c5_blest_lambda_monotone.2.1 ⟨2, 0, 10, 10⟩ ⟨1, 0, 10, 10⟩ [] ⟨1, 1, 1⟩ 5 3
    (by decide) (by decide) (by decide)

/-- A weight vector over `n` paths that is one-hot on some valid path
index: length `n`, one entry `1.0`, all other entries `0.0`. -/
def isOneHotOn (n : ℕ) (v : List ℚ) : Prop :=
  v.length = n ∧ ∃ j, j < n ∧ ∀ i, i < n → v.getD i 0 = if i = j then 1 else 0

lemma oneHotQ_isOneHotOn (n j : ℕ) (hj : j < n) : isOneHotOn n (oneHotQ n j) :=
  ⟨oneHotQ_length n j, j, hj, fun i hi => oneHotQ_getD n j hj i hi⟩

lemma roundRobin_shape (subflows : List PathInfo) (last : ℕ)
    (hne : subflows ≠ []) :
    ∃ j, j < subflows.length ∧
      (roundRobin subflows last).1 = oneHotQ subflows.length j := by
  have hpos : 0 < subflows.length := List.length_pos.mpr hne
  by_cases h : subflows.length ≤ 1
  · exact ⟨0, hpos, by simp [roundRobin, h]⟩
  · exact ⟨(last + 1) % subflows.length, Nat.mod_lt _ (by omega),
      by simp [roundRobin, h]⟩

lemma minRtt_shape (subflows : List PathInfo) (hne : subflows ≠ []) :
    ∃ j, j < subflows.length ∧ (minRtt subflows).1 = oneHotQ subflows.length j := by
  rcases subflows with _ | ⟨p0, _ | ⟨p1, rest⟩⟩
  · exact absurd rfl hne
  · exact ⟨0, by norm_num, by simp [minRtt]⟩
  · simp only [minRtt]
    split_ifs <;>
      first
        | exact ⟨1, by simp, rfl⟩
        | exact ⟨0, by simp, rfl⟩

lemma blest_shape (subflows : List PathInfo) (ctx : SockCtx)
    (lambda bVar : ℕ) (r : List ℚ × ℕ × ℕ)
    (hr : blest subflows ctx lambda bVar = some r) :
    ∃ j, j < subflows.length ∧ r.1 = oneHotQ subflows.length j := by
  rcases r with ⟨ts, cr, lam⟩
  show ∃ j, j < subflows.length ∧ ts = oneHotQ subflows.length j
  rcases subflows with _ | ⟨p0, _ | ⟨p1, rest⟩⟩
  · simp [blest] at hr
  · simp only [blest, Option.some.injEq, Prod.mk.injEq] at hr
    obtain ⟨h1, -, -⟩ := hr
    exact ⟨0, by norm_num, h1.symm⟩
  · simp only [blest] at hr
    split_ifs at hr
    all_goals try exact Option.noConfusion hr
    all_goals simp only [Option.some.injEq, Prod.mk.injEq] at hr
    all_goals obtain ⟨h1, -, -⟩ := hr
    all_goals first
      | exact ⟨1, by simp, h1.symm⟩
      | exact ⟨0, by simp, h1.symm⟩

lemma ecf_shape (subflows : List PathInfo) (ctx : SockCtx)
    (last waiting : ℕ) (r : List ℚ × ℕ × ℕ)
    (hr : ecf subflows ctx last waiting = some r) :
    ∃ j, j < subflows.length ∧ r.1 = oneHotQ subflows.length j := by
  rcases r with ⟨ts, cr, w⟩
  show ∃ j, j < subflows.length ∧ ts = oneHotQ subflows.length j
  rcases subflows with _ | ⟨p0, _ | ⟨p1, rest⟩⟩
  · simp [ecf] at hr
  · simp only [ecf, Option.some.injEq, Prod.mk.injEq] at hr
    obtain ⟨h1, -, -⟩ := hr
    exact ⟨0, by norm_num, h1.symm⟩
  · simp only [ecf] at hr
    split_ifs at hr
    all_goals try exact Option.noConfusion hr
    all_goals simp only [Option.some.injEq, Prod.mk.injEq] at hr
    all_goals obtain ⟨h1, -, -⟩ := hr
    all_goals first
      | exact ⟨(last + 1) % (rest.length + 2), Nat.mod_lt _ (by omega), h1.symm⟩
      | exact ⟨1, by simp, h1.symm⟩
      | exact ⟨0, by simp, h1.symm⟩

lemma blest_isSome (subflows : List PathInfo) (ctx : SockCtx)
    (lambda bVar : ℕ) (hne : subflows ≠ []) (hmss : ctx.segSize ≠ 0) :
    (blest subflows ctx lambda bVar).isSome = true := by
  rcases subflows with _ | ⟨p0, _ | ⟨p1, rest⟩⟩
  · exact absurd rfl hne
  · simp [blest]
  · simp only [blest]
    split_ifs <;> simp_all

lemma ecf_isSome (subflows : List PathInfo) (ctx : SockCtx)
    (last waiting : ℕ) (hne : subflows ≠ [])
    (hcw : ∀ p ∈ subflows, p.cWnd ≠ 0) :
    (ecf subflows ctx last waiting).isSome = true := by
  rcases subflows with _ | ⟨p0, _ | ⟨p1, rest⟩⟩
  · exact absurd rfl hne
  · simp [ecf]
  · have h0 : p0.cWnd ≠ 0 := hcw p0 (by simp)
    have h1 : p1.cWnd ≠ 0 := hcw p1 (by simp)
    simp only [ecf]
    split_ifs <;> simp_all

/-- Claim C10 counterexample: with two measured paths whose fast path has
a zero congestion window (hence zero available window), Ecf reaches the
integer division `k/cwnd` (mp-quic-scheduler.cc line 397) with a zero
divisor — undefined behaviour in C++, so no weight vector is returned
(`none` in the model); likewise Blest reaches `cwnd/mss` (line 342) with
segment size 0.  The original claim's "for every non-empty subflow list"
therefore fails for Ecf and Blest. -/
theorem c10_counterexample :
    ([(⟨2, 0, 1, 1⟩ : PathInfo), ⟨1, 0, 0, 0⟩] ≠ [])
    ∧ ecf [⟨2, 0, 1, 1⟩, ⟨1, 0, 0, 0⟩] ⟨1, 1, 1⟩ 0 0 = none
    ∧ blest [⟨2, 0, 1, 1⟩, ⟨1, 0, 1, 1⟩] ⟨0, 1, 1⟩ 0 0 = none := by
  refine ⟨by decide, by decide, by decide⟩

/-- Claim C10 (amended): for every non-empty subflow list, RoundRobin and
MinRtt return a weight vector of length equal to the number of subflows
with exactly one entry `1.0` (at a valid path index) and all other
entries `0.0`; Blest and Ecf return such a vector whenever their call
completes — completion can fail only at a C++ integer division by zero
(segment size 0 in Blest's `cwnd/mss`, a zero congestion window in Ecf's
`k/cwnd`), and is guaranteed when those divisors are nonzero. -/
theorem c10_deterministic_policies_one_hot (subflows : List PathInfo)
    (ctx : SockCtx) (last lambda bVar waiting : ℕ) (hne : subflows ≠ []) :
    isOneHotOn subflows.length (roundRobin subflows last).1
    ∧ isOneHotOn subflows.length (minRtt subflows).1
    ∧ (∀ r, blest subflows ctx lambda bVar = some r →
        isOneHotOn subflows.length r.1)
    ∧ (∀ r, ecf subflows ctx last waiting = some r →
        isOneHotOn subflows.length r.1)
    ∧ (ctx.segSize ≠ 0 → (blest subflows ctx lambda bVar).isSome = true)
    ∧ ((∀ p ∈ subflows, p.cWnd ≠ 0) →
        (ecf subflows ctx last waiting).isSome = true) := by
  refine ⟨?_, ?_, ?_, ?_, ?_, ?_⟩
  · obtain ⟨j1, hj1, he1⟩ := roundRobin_shape subflows last hne
    rw [he1]
    exact oneHotQ_isOneHotOn _ _ hj1
  · obtain ⟨j2, hj2, he2⟩ := minRtt_shape subflows hne
    rw [he2]
    exact oneHotQ_isOneHotOn _ _ hj2
  · intro r hr
    obtain ⟨j3, hj3, he3⟩ := blest_shape subflows ctx lambda bVar r hr
    rw [he3]
    exact oneHotQ_isOneHotOn _ _ hj3
  · intro r hr
    obtain ⟨j4, hj4, he4⟩ := ecf_shape subflows ctx last waiting r hr
    rw [he4]
    exact oneHotQ_isOneHotOn _ _ hj4
  · intro hmss
    exact blest_isSome subflows ctx lambda bVar hne hmss
  · intro hcw
    exact ecf_isSome subflows ctx last waiting hne hcw

theorem c10_witness :
    isOneHotOn 2 (roundRobin [⟨2, 0, 5, 3⟩, ⟨1, 0, 4, 2⟩] 0).1
    ∧ isOneHotOn 2 (minRtt [⟨2, 0, 5, 3⟩, ⟨1, 0, 4, 2⟩]).1
    ∧ (∀ r, blest [⟨2, 0, 5, 3⟩, ⟨1, 0, 4, 2⟩] ⟨7, 9, 11⟩ 5 3 = some r →
        isOneHotOn 2 r.1)
    ∧ (∀ r, ecf [⟨2, 0, 5, 3⟩, ⟨1, 0, 4, 2⟩] ⟨7, 9, 11⟩ 0 1 = some r →
        isOneHotOn 2 r.1)
    ∧ ((7 : ℕ) ≠ 0 →
        (blest [⟨2, 0, 5, 3⟩, ⟨1, 0, 4, 2⟩] ⟨7, 9, 11⟩ 5 3).isSome = true)
    ∧ ((∀ p ∈ [(⟨2, 0, 5, 3⟩ : PathInfo), ⟨1, 0, 4, 2⟩], p.cWnd ≠ 0) →
        (ecf [⟨2, 0, 5, 3⟩, ⟨1, 0, 4, 2⟩] ⟨7, 9, 11⟩ 0 1).isSome = true) :=
  c10_deterministic_policies_one_hot [⟨2, 0, 5, 3⟩, ⟨1, 0, 4, 2⟩]
    ⟨7, 9, 11⟩ 0 5 3 1 (by decide)

/-- The cursor sequence produced by iterating `RoundRobin` from starting
cursor `c0`: `rrTrace subflows c0 n` is `m_lastUsedPathId` after `n`
calls, i.e. the path selected at the `n`-th call (`n >= 1`). -/
def rrTrace (subflows : List PathInfo) (c0 : ℕ) : ℕ → ℕ
  | 0 => c0
  | n + 1 => (roundRobin subflows (rrTrace subflows c0 n)).2

/-- How many of the first `N` RoundRobin calls (from cursor `c0`) select
path `i`. -/
def rrCount (subflows : List PathInfo) (c0 N i : ℕ) : ℕ :=
  ((Finset.range N).filter (fun n => rrTrace subflows c0 (n + 1) = i)).card

/-- Count of `m < X` with `m % K = r`. -/
def gCount (K X r : ℕ) : ℕ :=
  ((Finset.range X).filter (fun m => m % K = r)).card

/-- Count of `n < N` with `(a + n) % K = r`. -/
def aCount (K a N r : ℕ) : ℕ :=
  ((Finset.range N).filter (fun n => (a + n) % K = r)).card

lemma roundRobin_cursor (subflows : List PathInfo) (last : ℕ)
    (h : 1 ≤ subflows.length) :
    (roundRobin subflows last).2 = (last + 1) % subflows.length := by
  by_cases h1 : subflows.length ≤ 1
  · have h2 : subflows.length = 1 := le_antisymm h1 h
    simp [roundRobin, h1, h2]
    omega
  · simp [roundRobin, h1]

lemma rrTrace_formula (subflows : List PathInfo) (c0 : ℕ)
    (h : 1 ≤ subflows.length) (n : ℕ) :
    rrTrace subflows c0 (n + 1) = (c0 + n + 1) % subflows.length := by
  induction n with
  | zero => simp [rrTrace, roundRobin_cursor _ _ h]
  | succ n ih =>
    have e1 : rrTrace subflows c0 (n + 1 + 1)
        = (roundRobin subflows (rrTrace subflows c0 (n + 1))).2 := rfl
    rw [e1, roundRobin_cursor _ _ h, ih, Nat.mod_add_mod]
    try congr 1
    try omega

lemma gCount_succ (K X r : ℕ) :
    gCount K (X + 1) r = gCount K X r + (if X % K = r then 1 else 0) := by
  unfold gCount
  rw [Finset.range_succ, Finset.filter_insert]
  split_ifs with h
  · rw [Finset.card_insert_of_not_mem (by simp)]
  · simp

lemma gCount_formula (K X r : ℕ) (hK : 0 < K) (hr : r < K) :
    gCount K X r = X / K + (if r < X % K then 1 else 0) := by
  induction X with
  | zero => simp [gCount]
  | succ X ih =>
    rw [gCount_succ, ih]
    have hqm : K * (X / K) + X % K = X := Nat.div_add_mod X K
    have hmK : X % K < K := Nat.mod_lt _ hK
    rcases Nat.lt_or_ge (X % K + 1) K with h | h
    · have e1 : X + 1 = K * (X / K) + (X % K + 1) := by omega
      have hdiv : (X + 1) / K = X / K := by
        rw [e1, Nat.mul_add_div hK, Nat.div_eq_of_lt h, Nat.add_zero]
      have hmod : (X + 1) % K = X % K + 1 := by
        rw [e1, Nat.mul_add_mod, Nat.mod_eq_of_lt h]
      rw [hdiv, hmod]
      split_ifs <;> omega
    · have hKe : X % K + 1 = K := by omega
      have e2 : K * (X / K + 1) = K * (X / K) + K := by ring
      have e1 : X + 1 = K * (X / K + 1) := by omega
      have hdiv : (X + 1) / K = X / K + 1 := by
        rw [e1, Nat.mul_div_cancel_left _ hK]
      have hmod : (X + 1) % K = 0 := by
        rw [e1, Nat.mul_mod_right]
      rw [hdiv, hmod]
      split_ifs <;> omega

lemma aCount_gCount (K a N r : ℕ) :
    gCount K a r + aCount K a N r = gCount K (a + N) r := by
  induction N with
  | zero => simp [aCount, gCount]
  | succ N ih =>
    have h1 : aCount K a (N + 1) r
        = aCount K a N r + (if (a + N) % K = r then 1 else 0) := by
      unfold aCount
      rw [Finset.range_succ, Finset.filter_insert]
      split_ifs with h
      · rw [Finset.card_insert_of_not_mem (by simp)]
      · simp
    have h2 : a + (N + 1) = (a + N) + 1 := by omega
    rw [h1, h2, gCount_succ, ← ih]
    omega

lemma aCount_bounds (K a N r : ℕ) (hK : 0 < K) (hr : r < K) :
    aCount K a N r = N / K ∨ aCount K a N r = (N + K - 1) / K := by
  have h1 := aCount_gCount K a N r
  rw [gCount_formula K a r hK hr, gCount_formula K (a + N) r hK hr] at h1
  have hadd : (a + N) / K
      = a / K + N / K + if K ≤ a % K + N % K then 1 else 0 := Nat.add_div hK
  have hmod : (a + N) % K = (a % K + N % K) % K := Nat.add_mod a N K
  have haK : a % K < K := Nat.mod_lt _ hK
  have hNK : N % K < K := Nat.mod_lt _ hK
  have hqmN : K * (N / K) + N % K = N := Nat.div_add_mod N K
  have hceil : (N + K - 1) / K = N / K + (if N % K = 0 then 0 else 1) := by
    rcases Nat.eq_zero_or_pos (N % K) with h | h
    · have e1 : N + K - 1 = K * (N / K) + (K - 1) := by omega
      rw [e1, Nat.mul_add_div hK,
        Nat.div_eq_of_lt (show K - 1 < K by omega), h]
      simp
    · have e2 : K * (N / K + 1) = K * (N / K) + K := by ring
      have e1 : N + K - 1 = K * (N / K + 1) + (N % K - 1) := by omega
      rw [e1, Nat.mul_add_div hK,
        Nat.div_eq_of_lt (show N % K - 1 < K by omega)]
      split_ifs <;> omega
  rcases Nat.lt_or_ge (a % K + N % K) K with hsum | hsum
  · have hm2 : (a + N) % K = a % K + N % K := by
      rw [hmod, Nat.mod_eq_of_lt hsum]
    have hd2 : (a + N) / K = a / K + N / K := by
      rw [hadd, if_neg (show ¬ K ≤ a % K + N % K by omega)]
      omega
    rw [hd2, hm2] at h1
    rw [hceil]
    split_ifs at h1 ⊢ <;> omega
  · have hm2 : (a + N) % K = a % K + N % K - K := by
      rw [hmod, Nat.mod_eq_sub_mod hsum, Nat.mod_eq_of_lt (by omega)]
    have hd2 : (a + N) / K = a / K + N / K + 1 := by
      rw [hadd, if_pos hsum]
    rw [hd2, hm2] at h1
    rw [hceil]
    split_ifs at h1 ⊢ <;> omega

lemma rrCount_eq_aCount (subflows : List PathInfo) (c0 N i : ℕ)
    (h : 1 ≤ subflows.length) :
    rrCount subflows c0 N i = aCount subflows.length (c0 + 1) N i := by
  unfold rrCount aCount
  congr 1
  apply Finset.filter_congr
  intro n _
  have e1 : rrTrace subflows c0 (n + 1) = (c0 + 1 + n) % subflows.length := by
    rw [rrTrace_formula _ _ h]
    congr 1
    omega
  rw [e1]

lemma rrTrace_length_congr (s1 s2 : List PathInfo) (c0 : ℕ)
    (h : s1.length = s2.length) (n : ℕ) :
    rrTrace s1 c0 n = rrTrace s2 c0 n := by
  induction n with
  | zero => rfl
  | succ n ih =>
    have e1 : rrTrace s1 c0 (n + 1) = (roundRobin s1 (rrTrace s1 c0 n)).2 := rfl
    have e2 : rrTrace s2 c0 (n + 1) = (roundRobin s2 (rrTrace s2 c0 n)).2 := rfl
    rw [e1, e2, ih]
    simp [roundRobin, h]

/-- Claim C8: for every starting cursor, every stable path count `K >= 1`
and every window of `N` consecutive RoundRobin calls, each path's
selection count is `floor(N/K)` or `ceil(N/K)`; and the counts depend
only on the number of subflows, not on any telemetry in them. -/
theorem c8_roundrobin_fairness (subflows : List PathInfo) (c0 N i : ℕ)
    (hK : 1 ≤ subflows.length) (hi : i < subflows.length) :
    (rrCount subflows c0 N i = N / subflows.length
      ∨ rrCount subflows c0 N i
          = (N + subflows.length - 1) / subflows.length)
    ∧ ∀ subflows2 : List PathInfo, subflows2.length = subflows.length →
        rrCount subflows2 c0 N i = rrCount subflows c0 N i := by
  constructor
  · rw [rrCount_eq_aCount _ _ _ _ hK]
    exact aCount_bounds _ _ _ _ hK hi
  · intro s2 h2
    unfold rrCount
    congr 1
    apply Finset.filter_congr
    intro n _
    rw [rrTrace_length_congr s2 subflows c0 h2]

theorem c8_roundrobin_fairness_witness :
    (rrCount [⟨2, 0, 5, 3⟩, ⟨1, 0, 4, 4⟩] 0 5 0 = 5 / 2
      ∨ rrCount [⟨2, 0, 5, 3⟩, ⟨1, 0, 4, 4⟩] 0 5 0 = (5 + 2 - 1) / 2)
    ∧ ∀ subflows2 : List PathInfo, subflows2.length = 2 →
        rrCount subflows2 0 5 0 = rrCount [⟨2, 0, 5, 3⟩, ⟨1, 0, 4, 4⟩] 0 5 0 :=
  c8_roundrobin_fairness [⟨2, 0, 5, 3⟩, ⟨1, 0, 4, 4⟩] 0 5 0
    (by decide) (by decide)

lemma list_sum_map_div (xs : List ℚ) (a : ℚ) :
    (xs.map (fun x => x / a)).sum = xs.sum / a := by
  induction xs with
  | nil => simp
  | cons x xs ih => simp [ih, add_div]

lemma plScores_length (l : ℚ → ℚ) (paths : List PathInfo) :
    (plScores l paths).length = paths.length := by
  simp [plScores]

lemma softmaxEs_length (e : ℚ → ℚ) (s : List ℚ) (prio : ℚ) :
    (softmaxEs e s prio).length = s.length := by
  simp [softmaxEs]

lemma argmax_foldl_spec (s : List ℚ) :
    ∀ (L : List ℕ) (b : ℕ),
      ((L.foldl (fun b i => if s.getD i 0 > s.getD b 0 then i else b) b) = b
        ∨ (L.foldl (fun b i => if s.getD i 0 > s.getD b 0 then i else b) b) ∈ L)
      ∧ s.getD b 0
          ≤ s.getD (L.foldl (fun b i => if s.getD i 0 > s.getD b 0 then i else b) b) 0
      ∧ ∀ i ∈ L, s.getD i 0
          ≤ s.getD (L.foldl (fun b i => if s.getD i 0 > s.getD b 0 then i else b) b) 0 := by
  intro L
  induction L with
  | nil => intro b; simp
  | cons j L ih =>
    intro b
    simp only [List.foldl_cons]
    obtain ⟨hmem, hle, hall⟩ := ih (if s.getD j 0 > s.getD b 0 then j else b)
    refine ⟨?_, ?_, ?_⟩
    · rcases hmem with h | h
      · rw [h]
        split_ifs with hc
        · exact Or.inr (List.mem_cons_self j L)
        · exact Or.inl rfl
      · exact Or.inr (List.mem_cons_of_mem j h)
    · refine le_trans ?_ hle
      split_ifs with hc
      · exact le_of_lt hc
      · exact le_refl _
    · intro i hi
      rcases List.mem_cons.mp hi with rfl | hi
      · refine le_trans ?_ hle
        split_ifs with hc
        · exact le_refl _
        · exact not_lt.mp hc
      · exact hall i hi

lemma argmaxIdx_lt (s : List ℚ) (hne : s ≠ []) : argmaxIdx s < s.length := by
  obtain ⟨hmem, -, -⟩ := argmax_foldl_spec s (List.range s.length) 0
  unfold argmaxIdx
  rcases hmem with h | h
  · rw [h]
    exact List.length_pos.mpr hne
  · exact List.mem_range.mp h

lemma argmaxIdx_max (s : List ℚ) (i : ℕ) (hi : i < s.length) :
    s.getD i 0 ≤ s.getD (argmaxIdx s) 0 := by
  obtain ⟨-, -, hall⟩ := argmax_foldl_spec s (List.range s.length) 0
  exact hall i (List.mem_range.mpr hi)

/-- Claim C6: for every PathSet of size >= 1 and every priority hint, the
PriorityLoad weight vector has every entry nonnegative and sums to
exactly 1 (hence within the claimed 1e-9), provided the exponential is
positive (as `std::exp` is); and whenever the sum of exponentials is not
positive the result is the one-hot vector on the best-scoring path. -/
theorem c6_priorityload_normalization (l : ℚ → ℚ) (paths : List PathInfo)
    (prio : ℚ) (hne : paths ≠ []) :
    (∀ e : ℚ → ℚ, (∀ q, 0 < e q) →
        (priorityLoad e l paths prio).sum = 1
        ∧ ∀ w ∈ priorityLoad e l paths prio, 0 ≤ w)
    ∧ (∀ e : ℚ → ℚ, 2 ≤ paths.length →
        (softmaxEs e (plScores l paths) (clamp01 prio)).sum ≤ 0 →
        priorityLoad e l paths prio
          = oneHotQ paths.length (argmaxIdx (plScores l paths))) := by
  constructor
  · intro e hpos
    by_cases hlen : paths.length ≤ 1
    · have h1 : paths.length = 1 := le_antisymm hlen (List.length_pos.mpr hne)
      rw [priorityLoad, if_pos hlen, h1]
      constructor
      · norm_num [oneHotQ, List.replicate]
      · intro w hw
        norm_num [oneHotQ, List.replicate] at hw
        rw [hw]
        norm_num
    · have hesne : softmaxEs e (plScores l paths) (clamp01 prio) ≠ [] := by
        intro hnil
        have h2 := softmaxEs_length e (plScores l paths) (clamp01 prio)
        rw [hnil, plScores_length] at h2
        simp at h2
        omega
      have hpos' : ∀ x ∈ softmaxEs e (plScores l paths) (clamp01 prio), 0 < x := by
        intro x hx
        simp only [softmaxEs, List.mem_map] at hx
        obtain ⟨v, -, rfl⟩ := hx
        exact hpos _
      have hsum : 0 < (softmaxEs e (plScores l paths) (clamp01 prio)).sum :=
        List.sum_pos _ hpos' hesne
      have hnle : ¬ (softmaxEs e (plScores l paths) (clamp01 prio)).sum ≤ 0 :=
        not_le.mpr hsum
      rw [priorityLoad, if_neg hlen, softmaxW, if_neg hnle]
      constructor
      · rw [list_sum_map_div]
        exact div_self (ne_of_gt hsum)
      · intro w hw
        simp only [List.mem_map] at hw
        obtain ⟨x, hx, rfl⟩ := hw
        exact div_nonneg (le_of_lt (hpos' x hx)) (le_of_lt hsum)
  · intro e h2 hsle
    have hlen : ¬ paths.length ≤ 1 := by omega
    rw [priorityLoad, if_neg hlen, softmaxW, if_pos hsle, plScores_length]

theorem c6_priorityload_witness :
    ((priorityLoad (fun q => 1 + q * q) (fun q => q)
        [⟨2, 0, 5, 3⟩, ⟨1, 0, 4, 4⟩] (1/2)).sum = 1
      ∧ ∀ w ∈ priorityLoad (fun q => 1 + q * q) (fun q => q)
          [⟨2, 0, 5, 3⟩, ⟨1, 0, 4, 4⟩] (1/2), 0 ≤ w) :=
  (c6_priorityload_normalization (fun q => q) [⟨2, 0, 5, 3⟩, ⟨1, 0, 4, 4⟩]
      (1/2) (by decide)).1 (fun q => 1 + q * q)
    (fun q => show (0 : ℚ) < 1 + q * q by nlinarith [mul_self_nonneg q])

lemma clamp01_eq (p : ℚ) (h0 : 0 ≤ p) (h1 : p ≤ 1) : clamp01 p = p := by
  unfold clamp01
  rw [if_neg (not_lt.mpr h0), if_neg (not_lt.mpr h1)]

lemma plTemp_pos (p : ℚ) : 0 < plTemp p :=
  lt_of_lt_of_le (by norm_num) (le_max_left _ _)

lemma plTemp_anti {p q : ℚ} (h : p ≤ q) : plTemp q ≤ plTemp p := by
  unfold plTemp
  apply max_le_max (le_refl _)
  have h2 : (17 / 20 : ℚ) * p ≤ (17 / 20) * q :=
    mul_le_mul_of_nonneg_left h (by norm_num)
  linarith

/-- Claim C7: for a fixed PathSet of at least two paths (hence a fixed
score vector), the PriorityLoad weight on the best-scoring path is
non-decreasing in the priority hint on `[0,1]`, assuming only that the
exponential is monotone and positive (as `std::exp` is). -/
theorem c7_priorityload_concentration (e l : ℚ → ℚ) (paths : List PathInfo)
    (pa pb : ℚ) (hlen : 2 ≤ paths.length)
    (hmono : Monotone e) (hpos : ∀ q, 0 < e q)
    (h0 : 0 ≤ pa) (hab : pa ≤ pb) (hb1 : pb ≤ 1) :
    (priorityLoad e l paths pa).getD (argmaxIdx (plScores l paths)) 0
      ≤ (priorityLoad e l paths pb).getD (argmaxIdx (plScores l paths)) 0 := by
  have hnle : ¬ paths.length ≤ 1 := by omega
  have hca : clamp01 pa = pa := clamp01_eq pa h0 (le_trans hab hb1)
  have hcb : clamp01 pb = pb := clamp01_eq pb (le_trans h0 hab) hb1
  have hsL : (plScores l paths).length = paths.length := plScores_length l paths
  have hsne : plScores l paths ≠ [] := by
    intro hnil
    rw [hnil] at hsL
    simp at hsL
    omega
  have hblt : argmaxIdx (plScores l paths) < (plScores l paths).length :=
    argmaxIdx_lt _ hsne
  have hsumpos : ∀ p : ℚ, 0 < (softmaxEs e (plScores l paths) p).sum := by
    intro p
    have hesne : softmaxEs e (plScores l paths) p ≠ [] := by
      intro hnil
      have h2 := softmaxEs_length e (plScores l paths) p
      rw [hnil, hsL] at h2
      simp at h2
      omega
    refine List.sum_pos _ ?_ hesne
    intro x hx
    simp only [softmaxEs, List.mem_map] at hx
    obtain ⟨v, -, rfl⟩ := hx
    exact hpos _
  have wformula : ∀ p : ℚ, clamp01 p = p →
      (priorityLoad e l paths p).getD (argmaxIdx (plScores l paths)) 0
        = e 0 / (softmaxEs e (plScores l paths) p).sum := by
    intro p hcp
    rw [priorityLoad, if_neg hnle, hcp, softmaxW,
      if_neg (not_le.mpr (hsumpos p))]
    have hblt2 : argmaxIdx (plScores l paths)
        < ((softmaxEs e (plScores l paths) p).map
            (fun x => x / (softmaxEs e (plScores l paths) p).sum)).length := by
      rw [List.length_map, softmaxEs_length]
      exact hblt
    rw [List.getD_eq_getElem _ _ hblt2, List.getElem_map]
    congr 1
    simp only [softmaxEs, List.getElem_map]
    rw [← List.getD_eq_getElem (plScores l paths) 0 hblt, sub_self, zero_div]
  have hSle : (softmaxEs e (plScores l paths) pb).sum
      ≤ (softmaxEs e (plScores l paths) pa).sum := by
    simp only [softmaxEs]
    apply List.sum_le_sum
    intro v hv
    apply hmono
    have hvle : v ≤ (plScores l paths).getD (argmaxIdx (plScores l paths)) 0 := by
      obtain ⟨i, hi, rfl⟩ := List.mem_iff_getElem.mp hv
      rw [← List.getD_eq_getElem (plScores l paths) 0 hi]
      exact argmaxIdx_max _ i hi
    have hx : v - (plScores l paths).getD (argmaxIdx (plScores l paths)) 0 ≤ 0 :=
      sub_nonpos.mpr hvle
    rw [div_le_div_iff (plTemp_pos pb) (plTemp_pos pa)]
    exact mul_le_mul_of_nonpos_left (plTemp_anti hab) hx
  rw [wformula pa hca, wformula pb hcb,
    div_le_div_iff (hsumpos pa) (hsumpos pb)]
  exact mul_le_mul_of_nonneg_left hSle (le_of_lt (hpos 0))

theorem c7_priorityload_witness :
    Monotone (fun _ : ℚ => (1 : ℚ))
    ∧ (priorityLoad (fun _ : ℚ => (1 : ℚ)) (fun q => q)
          [⟨2, 0, 5, 3⟩, ⟨1, 0, 4, 4⟩] 0).getD
        (argmaxIdx (plScores (fun q => q) [⟨2, 0, 5, 3⟩, ⟨1, 0, 4, 4⟩])) 0
      ≤ (priorityLoad (fun _ : ℚ => (1 : ℚ)) (fun q => q)
          [⟨2, 0, 5, 3⟩, ⟨1, 0, 4, 4⟩] 1).getD
        (argmaxIdx (plScores (fun q => q) [⟨2, 0, 5, 3⟩, ⟨1, 0, 4, 4⟩])) 0 :=
  ⟨monotone_const,
    c7_priorityload_concentration (fun _ => 1) (fun q => q)
      [⟨2, 0, 5, 3⟩, ⟨1, 0, 4, 4⟩] 0 1 (by decide) monotone_const
      (fun _ => one_pos) (by norm_num) (by norm_num) (by norm_num)⟩

lemma cexA_mul_diagInv : cexA * diagInv cexA = 1 := by
  ext i j
  rw [Matrix.mul_apply]
  fin_cases i <;> fin_cases j <;>
    simp [cexA, diagInv, Matrix.diagonal, Matrix.one_apply,
      Fin.sum_univ_six] <;>
    norm_num

lemma diagInv_one : diagInv (1 : Mat6) = 1 := by
  ext i j
  simp [diagInv, Matrix.diagonal, Matrix.one_apply]

lemma ratSqrt_quarter : ratSqrt (1 / 4) = 1 / 2 := by
  norm_num [ratSqrt]

lemma ratSqrt_one : ratSqrt (1 : ℚ) = 1 := by
  norm_num [ratSqrt]

/-- Claim C2 counterexample: a concrete Peekaboo decision (two paths,
RTTs `(2s, 1s)`, fast path saturated, learning state `A = diag(4,1,...,1)`,
`b = e0`, feature `x = e0`) in which the code computes `EPR[0] = 22/5`
(using `<x, A·b> = 4`), while the spec formula `<x, A⁻¹b> + 0.8·sqrt(x^T
A⁻¹ x)` gives `13/20`.  `diagInv`/`ratSqrt` agree with the true inverse
and square root at every evaluated argument (`cexA_mul_diagInv`,
`diagInv_one`, `ratSqrt_quarter`, `ratSqrt_one`). -/
theorem c2_counterexample :
    (peekaboo diagInv ratSqrt [⟨2, 0, 1, 1⟩, ⟨1, 0, 1, 1⟩]
        ⟨[0, 0], [cexA, 1], [cexB, 0], cexX, 0⟩).map
      (fun r => r.2.1.EPR.getD 0 0) = some (22 / 5)
    ∧ eprSpecFormula diagInv ratSqrt cexA cexB cexX = 13 / 20
    ∧ ((22 : ℚ) / 5) ≠ 13 / 20 := by
  refine ⟨?_, ?_, by norm_num⟩
  · have hs4 : Nat.sqrt 4 = 2 := by norm_num
    have hs1 : Nat.sqrt 1 = 1 := by norm_num
    have hcmp : ¬ ((4 : ℚ) + 4 / 5 * (2 : ℚ)⁻¹ < 4 / 5) := by norm_num
    have hval : (4 : ℚ) + 4 / 5 * (2 : ℚ)⁻¹ = 22 / 5 := by norm_num
    have hc2 : ¬ ((22 : ℚ) / 5 < 4 / 5) := by norm_num
    simp +decide [peekaboo, setAt, availableWindow, Matrix.dotProduct,
      Matrix.mulVec, Fin.sum_univ_six, cexA, cexB, cexX, diagInv,
      Matrix.diagonal, ratSqrt, Matrix.vecMulVec, Option.bind, hs4, hs1,
      hcmp, hval, hc2]
  · have hs4 : Nat.sqrt 4 = 2 := by norm_num
    simp +decide [eprSpecFormula, Matrix.dotProduct, Matrix.mulVec,
      Fin.sum_univ_six, cexA, cexB, cexX, diagInv, Matrix.diagonal,
      ratSqrt, hs4]
    norm_num

set_option maxHeartbeats 1600000 in
/-- Claim C2 (amended): on every Peekaboo decision where a real choice is
made (two subflows, measured RTTs, fast path without available window,
per-path vectors already sized 2), each path's estimate is computed as
`EPR = <feature, A·b> + 0.8 * sqrt(feature^T A⁻¹ feature)` — i.e. the
first term uses `A` itself (`zeta = A[i]*b[i]`), not `A⁻¹b` as the spec
states. -/
theorem c2_amended (inv6 : Mat6 → Mat6) (sq : ℚ → ℚ) (p0 p1 : PathInfo)
    (E0 E1 : ℚ) (A0 A1 : Mat6) (b0 b1 : Vec6) (x : Vec6) (R : ℚ)
    (hrtt : p1.lastRtt ≠ 0)
    (hw : availableWindow (if p0.lastRtt ≥ p1.lastRtt then p1 else p0) = 0) :
    ∃ ts A2 b2 ch,
      peekaboo inv6 sq [p0, p1] ⟨[E0, E1], [A0, A1], [b0, b1], x, R⟩
        = some (ts, ⟨[eprCodeFormula inv6 sq A0 b0 x,
                      eprCodeFormula inv6 sq A1 b1 x], A2, b2, x, R⟩, ch) := by
  by_cases hc : p0.lastRtt ≥ p1.lastRtt
  · have hw2 : ¬ 0 < availableWindow p1 := by
      rw [if_pos hc] at hw
      omega
    simp [peekaboo, setAt, hrtt, hc, hw2, eprCodeFormula]
    split_ifs <;>
      first
        | omega
        | exact ⟨_, _, _, _, rfl⟩
  · have hw2 : ¬ 0 < availableWindow p0 := by
      rw [if_neg hc] at hw
      omega
    simp [peekaboo, setAt, hrtt, hc, hw2, eprCodeFormula]
    split_ifs <;>
      first
        | omega
        | exact ⟨_, _, _, _, rfl⟩

theorem c2_amended_witness :
    ∃ ts A2 b2 ch,
      peekaboo diagInv ratSqrt [⟨2, 0, 1, 1⟩, ⟨1, 0, 1, 1⟩]
          ⟨[0, 0], [cexA, 1], [cexB, 0], cexX, 0⟩
        = some (ts, ⟨[eprCodeFormula diagInv ratSqrt cexA cexB cexX,
                      eprCodeFormula diagInv ratSqrt 1 0 cexX],
                    A2, b2, cexX, 0⟩, ch) :=
  c2_amended diagInv ratSqrt ⟨2, 0, 1, 1⟩ ⟨1, 0, 1, 1⟩ 0 0 cexA 1 cexB 0
    cexX 0 (by norm_num) (by decide)

/-- Claim C9 counterexample: on the first-ever Peekaboo call of a fresh
scheduler (empty `EPR`/`A`/`b`) with two active subflows, measured RTTs
`(2s, 1s)` and a saturated fast path, the lazy initialization — one
`push_back` per call, not a loop — grows the vectors only to size 1, and
the decision branch then reads index 1 out of bounds (modelled as
`none`), falsifying the claim that the vectors have reached size 2. -/
theorem c9_counterexample :
    ((2 : ℚ) ≠ 0) ∧ ((1 : ℚ) ≠ 0)
    ∧ availableWindow ⟨1, 0, 1, 1⟩ = 0
    ∧ (peekaboo diagInv ratSqrt [⟨2, 0, 1, 1⟩, ⟨1, 0, 1, 1⟩]
        ⟨[], [], [], cexX, 0⟩).isNone = true := by
  refine ⟨by norm_num, by norm_num, by decide, ?_⟩
  simp +decide [peekaboo, setAt, availableWindow, Option.bind]

set_option maxHeartbeats 1600000 in
/-- Claim C9 (amended): a Peekaboo call with two active subflows accesses
only in-bounds indices of `EPR`, `A` and `b` provided the per-path
vectors already hold at least one entry each on entry (which the
one-push lazy initialization then grows to two); on the very first call
with two subflows the vectors are still empty and the decision branch
reads out of bounds (see the counterexample). -/
theorem c9_amended (inv6 : Mat6 → Mat6) (sq : ℚ → ℚ) (p0 p1 : PathInfo)
    (st : PeekSt) (hE : 1 ≤ st.EPR.length)
    (hA : st.A.length = st.EPR.length) (hB : st.b.length = st.EPR.length) :
    (peekaboo inv6 sq [p0, p1] st).isSome = true := by
  obtain ⟨E, A, b, x, R⟩ := st
  simp only at hE hA hB
  by_cases hpush : E.length < 2
  · have hE1 : E.length = 1 := by omega
    rcases E with _ | ⟨e0, E⟩
    · simp at hE1
    rcases E with _ | ⟨e1, E⟩
    swap
    · simp at hE1
    rcases A with _ | ⟨a0, A⟩
    · simp [hE1] at hA
    rcases A with _ | ⟨a1, A⟩
    swap
    · simp [hE1] at hA
    rcases b with _ | ⟨v0, b⟩
    · simp [hE1] at hB
    rcases b with _ | ⟨v1, b⟩
    swap
    · simp [hE1] at hB
    by_cases hz : p1.lastRtt = 0
    · simp [peekaboo, setAt, hz]
    · by_cases hc : p0.lastRtt ≥ p1.lastRtt
      · by_cases hwv : 0 < availableWindow p1
        · simp [peekaboo, setAt, hz, hc, hwv]
        · simp [peekaboo, setAt, hz, hc, hwv]
          split_ifs <;>
            first
              | omega
              | simp
      · by_cases hwv : 0 < availableWindow p0
        · simp [peekaboo, setAt, hz, hc, hwv]
        · simp [peekaboo, setAt, hz, hc, hwv]
          split_ifs <;>
            first
              | omega
              | simp
  · rcases E with _ | ⟨e0, E⟩
    · simp at hE
    rcases E with _ | ⟨e1, E⟩
    · simp at hpush
    rcases A with _ | ⟨a0, A⟩
    · simp at hA
    rcases A with _ | ⟨a1, A⟩
    · simp at hA
      try omega
    rcases b with _ | ⟨v0, b⟩
    · simp at hB
    rcases b with _ | ⟨v1, b⟩
    · simp at hB
      try omega
    have hnp : ¬ (E.length + 1 + 1 < 2) := by omega
    by_cases hz : p1.lastRtt = 0
    · simp [peekaboo, setAt, hz, hnp]
    · by_cases hc : p0.lastRtt ≥ p1.lastRtt
      · by_cases hwv : 0 < availableWindow p1
        · simp [peekaboo, setAt, hz, hc, hwv, hnp]
        · simp [peekaboo, setAt, hz, hc, hwv, hnp]
          split_ifs <;>
            first
              | omega
              | simp
      · by_cases hwv : 0 < availableWindow p0
        · simp [peekaboo, setAt, hz, hc, hwv, hnp]
        · simp [peekaboo, setAt, hz, hc, hwv, hnp]
          split_ifs <;>
            first
              | omega
              | simp

theorem c9_amended_witness :
    (peekaboo diagInv ratSqrt [⟨2, 0, 1, 1⟩, ⟨1, 0, 1, 1⟩]
        ⟨[0], [1], [0], cexX, 0⟩).isSome = true :=
  c9_amended diagInv ratSqrt ⟨2, 0, 1, 1⟩ ⟨1, 0, 1, 1⟩
    ⟨[0], [1], [0], cexX, 0⟩ (by decide) (by decide) (by decide)
